import Mathlib

/-!
Verification development for the Agora video-call API repository.

The definitions below are a shallow embedding of the call-session data
model and its operations, translated from `src/models/call.model.js`,
`src/controllers/call.controller.js` and the socket relay in
`src/unnamed/part_006` (server entry point).

Conventions of the embedding:
* user ids are `Nat` (Mongo ObjectId strings compared with `toString()` in
  the source become decidable equality on `Nat`);
* timestamps are `Int` milliseconds since the epoch (JS `Date` arithmetic
  subtracts to a millisecond number); `Math.floor(x / 1000)` becomes
  `Int.fdiv x 1000` (floor division);
* a mongoose `save()` runs the presave middleware of the schema before
  persisting, so every method that ends in `this.save()` returns the
  document with the middleware applied.
-/

inductive Role where
  | host
  | participant
  | moderator
deriving DecidableEq, Repr

inductive CallStatus where
  | scheduled
  | active
  | ended
  | cancelled
deriving DecidableEq, Repr

inductive InvStatus where
  | pending
  | accepted
  | declined
  | expired
deriving DecidableEq, Repr

inductive MessageType where
  | text
  | system
  | file
  | emoji
deriving DecidableEq, Repr

/-- Participant permission flags (participantSchema.permissions); every
flag defaults to false in the schema. -/
structure Permissions where
  canInvite : Bool := false
  canMute : Bool := false
  canKick : Bool := false
  canRecord : Bool := false
deriving DecidableEq, Repr

/-- Participant media state (participantSchema.mediaState). -/
structure MediaState where
  audioEnabled : Bool := true
  videoEnabled : Bool := true
  screenSharing : Bool := false
deriving DecidableEq, Repr

/-- One entry of `call.participants` (participantSchema). -/
structure Participant where
  userId : Nat
  joinedAt : Int
  leftAt : Option Int := none
  duration : Option Int := none
  role : Role := .participant
  permissions : Permissions := {}
  mediaState : MediaState := {}
  isActive : Bool := true
deriving DecidableEq, Repr

/-- Call settings subdocument (callSchema.settings). -/
structure CallSettings where
  waitingRoom : Bool := false
  allowChat : Bool := true
  allowScreenShare : Bool := true
  allowRecording : Bool := false
  muteOnJoin : Bool := false
  disableVideo : Bool := false
  requirePassword : Bool := false
  password : Option String := none
  lockRoom : Bool := false
deriving DecidableEq, Repr

/-- One entry of `call.chatMessages`. -/
structure ChatMessage where
  senderId : Nat
  message : String
  timestamp : Int
  messageType : MessageType := .text
deriving DecidableEq, Repr

/-- One entry of `call.invitations`. -/
structure Invitation where
  userId : Nat
  invitedBy : Nat
  invitedAt : Int
  status : InvStatus := .pending
  respondedAt : Option Int := none
deriving DecidableEq, Repr

/-- The analytics fields recomputed by the presave middleware
(callSchema.analytics; the quality and network fields are never written
by the code under verification and are omitted). -/
structure Analytics where
  totalParticipants : Nat := 0
  maxConcurrentParticipants : Nat := 0
  totalMessages : Nat := 0
deriving DecidableEq, Repr

/-- The call session document (callSchema), restricted to the fields read
or written by the modelled operations. -/
structure Call where
  channelName : String
  host : Nat
  participants : List Participant := []
  maxParticipants : Nat := 50
  status : CallStatus := .active
  scheduledFor : Option Int := none
  startedAt : Int
  endedAt : Option Int := none
  duration : Option Int := none
  settings : CallSettings := {}
  chatMessages : List ChatMessage := []
  invitations : List Invitation := []
  analytics : Analytics := {}
deriving DecidableEq, Repr

/-- Result of `canUserJoin`. -/
structure JoinCheck where
  canJoin : Bool
  reason : Option String := none
deriving DecidableEq, Repr

/-- Error taxonomy of the controller layer: 400 validation failures,
403 forbidden, 404 not found.  `InvalidState` belongs to the taxonomy of
the specification (operation illegal for the current status); it is
included so that claims about it can be stated, and no code path below
produces it. -/
inductive CError where
  | ValidationError
  | Forbidden
  | NotFound
  | InvalidState
deriving DecidableEq, Repr

/-- Updates the first element of a list satisfying `p` by `f`, leaving
everything else unchanged.  This models a JS `Array.prototype.find`
followed by in-place mutation of the returned element. -/
def updateFirst (p : α → Bool) (f : α → α) : List α → List α
  | [] => []
  | x :: xs => if p x then f x :: xs else x :: updateFirst p f xs

namespace Call

/-- Virtual `activeParticipantsCount`: participants with `isActive`. -/
def activeParticipantsCount (c : Call) : Nat :=
  (c.participants.filter fun p => p.isActive).length

/-- First half of the presave middleware (callSchema.pre save): recompute
`duration` when the call has ended. -/
def saveDuration (c : Call) : Call :=
  match c.status, c.endedAt with
  | .ended, some e => { c with duration := some ((e - c.startedAt).fdiv 1000) }
  | _, _ => c

/-- The presave middleware (callSchema.pre save): recompute `duration`
when the call has ended, and refresh the analytics counters.  Every
`this.save()` in the source runs this before persisting, so the
embedding of each mutating method applies `save` to its result. -/
def save (c : Call) : Call :=
  { c.saveDuration with analytics :=
      { totalParticipants := c.saveDuration.participants.length
        maxConcurrentParticipants :=
          max c.saveDuration.analytics.maxConcurrentParticipants c.saveDuration.activeParticipantsCount
        totalMessages := c.saveDuration.chatMessages.length } }

/-- Reactivation of an existing participant entry inside `addParticipant`. -/
def reactivate (now : Int) (p : Participant) : Participant :=
  { p with isActive := true, joinedAt := now, leftAt := none }

/-- Instance method `addParticipant(userId, role, permissions)`; `now` is
the clock value used for `new Date()` and the schema default `joinedAt`. -/
def addParticipant (c : Call) (userId : Nat) (role : Role) (perms : Permissions)
    (now : Int) : Call :=
  match c.participants.find? (fun p => p.userId == userId) with
  | some existing =>
      if existing.isActive then
        save c
      else
        save { c with participants := updateFirst (fun p => p.userId == userId) (reactivate now) c.participants }
  | none =>
      save { c with participants := c.participants ++
        [{ userId := userId
           joinedAt := now
           role := role
           permissions :=
             { canInvite := perms.canInvite || (role == .host || role == .moderator)
               canMute := perms.canMute || (role == .host || role == .moderator)
               canKick := perms.canKick || (role == .host)
               canRecord := perms.canRecord || (role == .host) } }] }

/-- Deactivation of a participant entry inside `removeParticipant`. -/
def deactivate (now : Int) (p : Participant) : Participant :=
  { p with isActive := false, leftAt := some now,
           duration := some ((now - p.joinedAt).fdiv 1000) }

/-- Instance method `removeParticipant(userId)`. -/
def removeParticipant (c : Call) (userId : Nat) (now : Int) : Call :=
  match c.participants.find? (fun p => p.userId == userId) with
  | some p =>
      if p.isActive then
        save { c with participants := updateFirst (fun q => q.userId == userId) (deactivate now) c.participants }
      else
        save c
  | none => save c

/-- Instance method `addChatMessage(senderId, message, messageType)`.
The chat message subschema declares `required: true` and
`maxlength: 1000` on `message`, which mongoose validates when `save()`
runs, rejecting the document with a ValidationError; that validation is
modelled here at the point where the message is pushed. -/
def addChatMessage (c : Call) (senderId : Nat) (message : String)
    (messageType : MessageType) (now : Int) : Except CError Call :=
  if message.length == 0 || message.length > 1000 then
    .error .ValidationError
  else
    .ok (save { c with chatMessages := c.chatMessages ++
      [{ senderId := senderId, message := message, timestamp := now,
         messageType := messageType }] })

/-- Instance method `endCall()`: set status/endedAt and mark every active
participant as having left at `endedAt`. -/
def endCall (c : Call) (now : Int) : Call :=
  save { c with
    status := .ended
    endedAt := some now
    participants := c.participants.map fun p =>
      if p.isActive then
        { p with isActive := false, leftAt := some now,
                 duration := some ((now - p.joinedAt).fdiv 1000) }
      else p }

/-- Instance method `canUserJoin(userId)`. -/
def canUserJoin (c : Call) (userId : Nat) : JoinCheck :=
  if !(c.status == .active) && !(c.status == .scheduled) then
    { canJoin := false, reason := some "Call is not active" }
  else if c.activeParticipantsCount ≥ c.maxParticipants then
    { canJoin := false, reason := some "Call is full" }
  else if c.settings.lockRoom then
    let isParticipant := c.participants.any fun p => p.userId == userId
    let hasInvitation := c.invitations.any fun inv =>
      inv.userId == userId && inv.status == .accepted
    if !isParticipant && !hasInvitation then
      { canJoin := false, reason := some "Room is locked" }
    else
      { canJoin := true }
  else
    { canJoin := true }

end Call

/-- JS `String.prototype.trim`: strip leading and trailing whitespace.
Written structurally on the character list so that it evaluates inside
the kernel (the library `String.trim` is byte-position based and does
not reduce definitionally). -/
def jsTrim (s : String) : String :=
  String.mk (((s.data.dropWhile Char.isWhitespace).reverse.dropWhile Char.isWhitespace).reverse)

/-- Real-time events emitted through socket.io by the HTTP controllers.
Each constructor carries the payload fields the claims refer to. -/
inductive CallEvent where
  | userLeftCall (userId : Nat)
  | hostChanged (newHostId : Nat)
  | callEndedNoActive
  | callEndedBy (userId : Nat)
  | callInvitation (targetUserId : Nat) (sender : Nat)
deriving DecidableEq, Repr

/-- Full permissions granted on host promotion (call.controller.js,
leaveCall host transfer). -/
def fullPermissions : Permissions :=
  { canInvite := true, canMute := true, canKick := true, canRecord := true }

/-- Promotion of a participant entry to host with full permissions. -/
def promoteToHost (p : Participant) : Participant :=
  { p with role := .host, permissions := fullPermissions }

namespace CallController

/-- Controller `leaveCall` (call.controller.js lines 192 to 252), acting
on a found call document: remove the participant, emit user-left-call,
transfer the host role to the first remaining active participant when
the leaver is the host and active participants remain, and end the call
when no active participant remains.  Returns the stored document
together with the emitted events. -/
def leaveCall (c : Call) (userId : Nat) (now : Int) : Call × List CallEvent :=
  let c1 := Call.removeParticipant c userId now
  let evs1 := [CallEvent.userLeftCall userId]
  let step2 : Call × List CallEvent :=
    if c1.host == userId && c1.activeParticipantsCount > 0 then
      let activeParticipants := c1.participants.filter fun p =>
        p.isActive && !(p.userId == userId)
      match activeParticipants with
      | [] => (c1, evs1)
      | newHost :: _ =>
          let c2 := Call.save { c1 with
            host := newHost.userId
            participants := updateFirst (fun p => p.isActive && !(p.userId == userId)) promoteToHost c1.participants }
          (c2, evs1 ++ [CallEvent.hostChanged newHost.userId])
    else (c1, evs1)
  let c2 := step2.1
  if c2.activeParticipantsCount == 0 then
    (Call.endCall c2 now, step2.2 ++ [CallEvent.callEndedNoActive])
  else
    step2

/-- Controller `endCall` (call.controller.js lines 255 to 287): only the
host or a moderator participant may end the call; there is no check of
the current status. -/
def endCall (c : Call) (userId : Nat) (now : Int) :
    Except CError (Call × List CallEvent) :=
  let participant := c.participants.find? fun p => p.userId == userId
  if !(c.host == userId) &&
      (participant.isNone || !((participant.map (·.role)).getD .participant == .moderator)) then
    .error .Forbidden
  else
    .ok (Call.endCall c now, [CallEvent.callEndedBy userId])

/-- A fresh pending invitation record. -/
def mkInvitation (target : Nat) (invitedBy : Nat) (now : Int) : Invitation :=
  { userId := target, invitedBy := invitedBy, invitedAt := now, status := .pending }

/-- Controller `inviteToCall` (call.controller.js lines 359 to 423).  The
for loop checks every requested target against the invitation and
participant lists of the document as read (the accumulated new
invitations are pushed only after the loop), skipping targets with an
invitation record of any status or a participant entry whether active or
not.  Returns the stored document, the emitted invitation events and
`invitationsSent`, the number of invitations created. -/
def inviteToCall (c : Call) (userId : Nat) (userIds : List Nat) (now : Int) :
    Except CError (Call × List CallEvent × Nat) :=
  if userIds.isEmpty then .error .ValidationError
  else
    match c.participants.find? (fun p => p.userId == userId && p.isActive) with
    | none => .error .Forbidden
    | some participant =>
        if !participant.permissions.canInvite then .error .Forbidden
        else
          let newInvitations :=
            (userIds.filter fun t =>
              !(c.invitations.any fun inv => inv.userId == t) &&
              !(c.participants.any fun p => p.userId == t)).map
              fun t => mkInvitation t userId now
          if newInvitations.length > 0 then
            .ok (Call.save { c with invitations := c.invitations ++ newInvitations },
                 newInvitations.map (fun inv => CallEvent.callInvitation inv.userId userId),
                 newInvitations.length)
          else
            .ok (c, [], 0)

/-- Controller `respondToInvitation` (call.controller.js lines 426 to
468): the response must be accepted or declined, and the first pending
invitation of the responding user is stamped with it. -/
def respondToInvitation (c : Call) (userId : Nat) (response : InvStatus) (now : Int) :
    Except CError Call :=
  if !(response == .accepted) && !(response == .declined) then
    .error .ValidationError
  else
    match c.invitations.find? (fun inv => inv.userId == userId && inv.status == .pending) with
    | none => .error .NotFound
    | some _ =>
        .ok (Call.save { c with invitations := updateFirst (fun inv => inv.userId == userId && inv.status == .pending) (fun inv => { inv with status := response, respondedAt := some now }) c.invitations })

/-- Controller `sendChatMessage` (call.controller.js lines 507 to 555):
reject a blank message, require an active participant and chat enabled,
then append the trimmed message (whose schema validation rejects more
than 1000 characters at save time). -/
def sendChatMessage (c : Call) (userId : Nat) (message : String)
    (messageType : MessageType) (now : Int) : Except CError Call :=
  if ((jsTrim message).length == 0) then .error .ValidationError
  else
    match c.participants.find? (fun p => p.userId == userId && p.isActive) with
    | none => .error .Forbidden
    | some _ =>
        if !c.settings.allowChat then .error .Forbidden
        else Call.addChatMessage c userId (jsTrim message) messageType now

/-- Requested call settings in the create-call body; absent fields are
`none` (JS `undefined`). -/
structure SettingsInput where
  waitingRoom : Option Bool := none
  allowChat : Option Bool := none
  allowScreenShare : Option Bool := none
  allowRecording : Option Bool := none
  muteOnJoin : Option Bool := none
  disableVideo : Option Bool := none
  requirePassword : Option Bool := none
  password : Option String := none
  lockRoom : Option Bool := none
deriving DecidableEq, Repr

/-- Controller `createCall` (call.controller.js lines 10 to 122),
restricted to the document it builds: the host capability checks,
`Math.min` capping of maxParticipants by the subscription feature,
settings mapping, the host inserted as first participant with full
permissions, and one pending invitation pushed per entry of
`inviteUserIds` (no deduplication).  External collaborators (Agora
token, response shaping) are out of scope. -/
def createCall (userId : Nat) (canMakeCall : Bool) (featureMaxParticipants : Nat)
    (recordingEnabled : Bool) (screenSharingEnabled : Bool) (channelName : String)
    (maxParticipants : Nat) (scheduledFor : Option Int) (settings : SettingsInput)
    (inviteUserIds : List Nat) (now : Int) : Except CError Call :=
  if !canMakeCall then .error .Forbidden
  else
    let call : Call :=
      { channelName := channelName
        host := userId
        maxParticipants := min maxParticipants featureMaxParticipants
        scheduledFor := scheduledFor
        status := if scheduledFor.isSome then .scheduled else .active
        startedAt := now
        settings :=
          { waitingRoom := settings.waitingRoom.getD false
            allowChat := !(settings.allowChat == some false)
            allowScreenShare := !(settings.allowScreenShare == some false) && screenSharingEnabled
            allowRecording := settings.allowRecording.getD false && recordingEnabled
            muteOnJoin := settings.muteOnJoin.getD false
            disableVideo := settings.disableVideo.getD false
            requirePassword := settings.requirePassword.getD false
            password := settings.password
            lockRoom := settings.lockRoom.getD false } }
    let call := Call.addParticipant call userId .host
      { canInvite := true, canMute := true, canKick := true, canRecord := recordingEnabled } now
    let call :=
      if !inviteUserIds.isEmpty then
        { call with invitations := call.invitations ++ inviteUserIds.map fun t => mkInvitation t userId now }
      else call
    .ok (Call.save call)

end CallController

/-! ### Socket relay (server entry point, src/unnamed/part_006)

The socket.io connection handler keeps two process-local maps,
`connectedUsers` and `activeRooms`, and a set of socket.io room
subscriptions.  They are modelled as association lists; a JS `Set` is a
duplicate-free list with insertion order. -/

/-- Value of the `connectedUsers` map: socket id and connection time
(the status field is the constant string online). -/
structure ConnInfo where
  socketId : Nat
  joinedAt : Int
deriving DecidableEq, Repr

/-- Events emitted by the socket handlers. -/
inductive SocketEvent where
  | userJoined (roomId : String) (excluding : Nat) (userId : Nat) (userData : String)
  | roomParticipants (toUser : Nat) (roomId : String)
      (participants : List (Nat × Option ConnInfo))
deriving DecidableEq, Repr

/-- Lookup of a room subscriber set in `activeRooms`. -/
def roomsLookup (ar : List (String × List Nat)) (roomId : String) : Option (List Nat) :=
  (ar.find? fun e => e.1 == roomId).map (·.2)

/-- JS `Set.prototype.add`: insert if absent. -/
def setAdd (s : List Nat) (u : Nat) : List Nat :=
  if s.contains u then s else s ++ [u]

/-- The two statements `if (!activeRooms.has(roomId)) activeRooms.set(roomId, new Set())`
followed by `activeRooms.get(roomId).add(socket.userId)`. -/
def roomsAdd (ar : List (String × List Nat)) (roomId : String) (u : Nat) :
    List (String × List Nat) :=
  match ar with
  | [] => [(roomId, [u])]
  | e :: es => if e.1 == roomId then (e.1, setAdd e.2 u) :: es else e :: roomsAdd es roomId u

/-- Result of the join-room socket handler: the updated room registry,
the room the socket subscribed to (the argument of `socket.join`), and
the emitted events. -/
structure JoinRoomResult where
  activeRooms : List (String × List Nat)
  joinedRoom : String
  events : List SocketEvent
deriving DecidableEq, Repr

/-- The join-room handler (part_006 lines 108 to 140): subscribe the
socket, add the user to the in-memory room set, broadcast user-joined to
the room excluding the sender, and send the current roster (room members
other than the caller, paired with their connection info) back to the
caller. -/
def joinRoomHandler (connectedUsers : List (Nat × ConnInfo))
    (activeRooms : List (String × List Nat)) (userId : Nat) (roomId : String)
    (userData : String) : JoinRoomResult :=
  let ar := roomsAdd activeRooms roomId userId
  let members := (roomsLookup ar roomId).getD []
  let participants := (members.filter fun id => !(id == userId)).map
    fun id => (id, (connectedUsers.find? fun e => e.1 == id).map (·.2))
  { activeRooms := ar
    joinedRoom := roomId
    events := [SocketEvent.userJoined roomId userId userId userData,
               SocketEvent.roomParticipants userId roomId participants] }

/-- The relay step for an inbound join-room event, paired with the store
of persisted call documents.  The handler body in part_006 performs no
read or write of any Call document (no CanJoin, no Join), so the store
passes through unchanged. -/
def relayJoinRoom (store : List Call) (connectedUsers : List (Nat × ConnInfo))
    (activeRooms : List (String × List Nat)) (userId : Nat) (roomId : String)
    (userData : String) : List Call × JoinRoomResult :=
  (store, joinRoomHandler connectedUsers activeRooms userId roomId userData)

/-! ### Spec-side definition for the host-failover refinement claim -/

/-- Modelled from the spec: deterministically pick the participant with
the earliest joinedAt among remaining active participants.  This follows
the words of the specification (section 4.1, Leave), for comparison with
the promotion the code performs; it is not a translation of the source. -/
def specEarliestRemainingHost (c : Call) (leaving : Nat) : Option Nat :=
  let remaining := c.participants.filter fun p => p.isActive && !(p.userId == leaving)
  (remaining.foldl (fun acc p =>
    match acc with
    | none => some p
    | some q => if p.joinedAt < q.joinedAt then some p else some q) none).map (·.userId)

/-! ### Operation sequences for the participant-uniqueness invariant -/

/-- A join or leave operation with its clock value. -/
inductive COp where
  | join (u : Nat) (t : Int)
  | leave (u : Nat) (t : Int)
deriving DecidableEq, Repr

/-- Application of one operation: join is `addParticipant` with the
default role and permissions (the join controller calls
`call.addParticipant(userId)`), leave is `removeParticipant`. -/
def applyOp (c : Call) : COp → Call
  | .join u t => Call.addParticipant c u .participant {} t
  | .leave u t => Call.removeParticipant c u t

/-- A sequence of joins and leaves applied in order. -/
def runOps (c : Call) (ops : List COp) : Call :=
  ops.foldl applyOp c

/-- Each user identity occurs at most once in the participant list. -/
def usersNodup (c : Call) : Prop :=
  (c.participants.map (·.userId)).Nodup

/-! ### Concrete scenario documents used by counterexamples and witnesses -/

/-- A freshly constructed call document with host 1, before any
participant joined. -/
def baseCall : Call := { channelName := "ch", host := 1, startedAt := 0 }

/-- Host failover scenario: host 1 joins at 0, user 2 joins at 10, user 3
joins at 20; user 2 leaves at 30 and rejoins at 40.  The participant
array order is then 1, 2, 3 while the joinedAt order is 1 (0), 3 (20),
2 (40). -/
def rejoinCall : Call :=
  Call.addParticipant
    (Call.removeParticipant
      (Call.addParticipant
        (Call.addParticipant
          (Call.addParticipant baseCall 1 .host fullPermissions 0)
          2 .participant {} 10)
        3 .participant {} 20)
      2 30)
    2 .participant {} 40

/-- The participant entry of user 2 in `rejoinCall` after the host
leaves: rejoined at 40, active. -/
def rejoinSecond : Participant :=
  { userId := 2, joinedAt := 40, leftAt := none, duration := some 0,
    role := .participant, permissions := {}, mediaState := {}, isActive := true }

/-- The participant entry of user 3 in `rejoinCall` after the host
leaves: joined at 20, active. -/
def rejoinThird : Participant :=
  { userId := 3, joinedAt := 20, leftAt := none, duration := none,
    role := .participant, permissions := {}, mediaState := {}, isActive := true }

/-- An already ended call hosted by user 1, ended at 500. -/
def endedCall : Call :=
  { channelName := "c2"
    host := 1
    startedAt := 0
    status := .ended
    endedAt := some 500
    participants := [{ userId := 1, joinedAt := 0, role := .host, isActive := false }] }

/-- An already ended call hosted by user 1 with an (inactive) moderator
participant 2 and a plain participant 3. -/
def endedModCall : Call :=
  { channelName := "c2m"
    host := 1
    startedAt := 0
    status := .ended
    endedAt := some 500
    participants := [{ userId := 1, joinedAt := 0, role := .host, isActive := false },
                     { userId := 2, joinedAt := 0, role := .moderator, isActive := false },
                     { userId := 3, joinedAt := 0, isActive := false }] }

/-- An ended call whose channel name is the room a socket joins. -/
def endedRoomCall : Call :=
  { channelName := "room1"
    host := 1
    startedAt := 0
    status := .ended
    endedAt := some 5 }

/-- A locked active call whose only participant entry, user 5, is
inactive (user 5 joined earlier and left), with no invitations. -/
def lockedCall : Call :=
  { channelName := "c4"
    host := 1
    startedAt := 0
    status := .active
    maxParticipants := 10
    settings := { lockRoom := true }
    participants := [{ userId := 5, joinedAt := 0, isActive := false }] }

/-- The locked call with a pending invitation for user 6. -/
def lockedInvitedCall : Call :=
  { lockedCall with invitations := [{ userId := 6, invitedBy := 1, invitedAt := 0 }] }

/-- A call whose only active participant is its host. -/
def soloCall : Call := Call.addParticipant baseCall 1 .host fullPermissions 0

/-- An active call with host 1 as only participant and a declined
invitation on record for user 5. -/
def declinedInviteCall : Call :=
  { channelName := "c7"
    host := 1
    startedAt := 0
    participants := [{ userId := 1, joinedAt := 0, role := .host, permissions := fullPermissions }]
    invitations := [{ userId := 5, invitedBy := 1, invitedAt := 1, status := .declined }] }

/-- An active call with chat enabled and host 1 as only participant. -/
def chatCall : Call :=
  { channelName := "c9"
    host := 1
    startedAt := 0
    participants := [{ userId := 1, joinedAt := 0, role := .host, permissions := fullPermissions }] }

/-- A 1000 character chat message. -/
def longMessage : String := String.mk (List.replicate 1000 'a')

/-- An active call with no participant entries at all. -/
def emptyActiveCall : Call := { channelName := "c10", host := 1, startedAt := 0, status := .active }

/-- A join and leave history for the uniqueness witness: 1 joins, 2
joins, 2 leaves, 2 rejoins, 2 joins again while active. -/
def rejoinOps : List COp := [.join 1 0, .join 2 1, .leave 2 2, .join 2 3, .join 2 4]

/-- A history after which user 2 has an inactive entry: 1 joins, 2
joins, 2 leaves. -/
def leftOps : List COp := [.join 1 0, .join 2 1, .leave 2 2]

/-- The inactive entry of user 2 after `leftOps` on `baseCall`. -/
def leftEntry : Participant :=
  { userId := 2, joinedAt := 1, leftAt := some 2, duration := some 0, isActive := false }

/-- The document produced by user 6 accepting their invitation on the
locked call. -/
def lockedAcceptedCall : Call :=
  (CallController.respondToInvitation lockedInvitedCall 6 .accepted 5).toOption.getD baseCall

/-! ## Helper lemmas -/

theorem updateFirst_length (p : α → Bool) (f : α → α) :
    ∀ l : List α, (updateFirst p f l).length = l.length := by
  intro l
  induction l with
  | nil => rfl
  | cons x xs ih =>
      by_cases hx : p x
      · simp [updateFirst, hx]
      · simp [updateFirst, hx, ih]

theorem map_updateFirst (p : α → Bool) (f : α → α) (g : α → β)
    (hg : ∀ a, g (f a) = g a) :
    ∀ l : List α, (updateFirst p f l).map g = l.map g := by
  intro l
  induction l with
  | nil => rfl
  | cons x xs ih =>
      by_cases hx : p x
      · simp [updateFirst, hx, hg]
      · simp [updateFirst, hx, ih]

theorem find?_updateFirst (p : α → Bool) (f : α → α)
    (hpf : ∀ a, p a = true → p (f a) = true) :
    ∀ (l : List α) (x : α), l.find? p = some x →
      (updateFirst p f l).find? p = some (f x) := by
  intro l
  induction l with
  | nil => intro x hx; simp [List.find?] at hx
  | cons y ys ih =>
      intro x hx
      by_cases hy : p y
      · rw [List.find?_cons_of_pos _ hy] at hx
        cases hx
        simp [updateFirst, hy, List.find?_cons_of_pos _ (hpf _ hy)]
      · rw [List.find?_cons_of_neg _ hy] at hx
        simp [updateFirst, hy, List.find?_cons_of_neg _ hy, ih _ hx]

theorem any_updateFirst_of_find? (p : α → Bool) (f : α → α) (r : α → Bool) :
    ∀ (l : List α) (x : α), l.find? p = some x → r (f x) = true →
      (updateFirst p f l).any r = true := by
  intro l
  induction l with
  | nil => intro x hx; simp [List.find?] at hx
  | cons y ys ih =>
      intro x hx hr
      by_cases hy : p y
      · rw [List.find?_cons_of_pos _ hy] at hx
        cases hx
        simp [updateFirst, hy, hr]
      · rw [List.find?_cons_of_neg _ hy] at hx
        simp [updateFirst, hy]
        right
        have := ih _ hx hr
        simpa [List.any_eq_true] using this

theorem updateFirst_append (p : α → Bool) (f : α → α) :
    ∀ (l1 : List α) (q : α) (l2 : List α), (∀ x ∈ l1, p x = false) → p q = true →
      updateFirst p f (l1 ++ q :: l2) = l1 ++ f q :: l2 := by
  intro l1
  induction l1 with
  | nil => intro q l2 _ hq; simp [updateFirst, hq]
  | cons x xs ih =>
      intro q l2 h1 hq
      have hx : p x = false := h1 x (by simp)
      simp only [List.cons_append, updateFirst, hx]
      simp only [Bool.false_eq_true, if_false]
      rw [List.append_eq, ih q l2 (fun y hy => h1 y (by simp [hy])) hq]

theorem filter_eq_cons_split (p : α → Bool) :
    ∀ (l : List α) (q : α) (qs : List α), l.filter p = q :: qs →
      ∃ l1 l2, l = l1 ++ q :: l2 ∧ (∀ x ∈ l1, p x = false) ∧ p q = true ∧
        l2.filter p = qs := by
  intro l
  induction l with
  | nil => intro q qs h; simp at h
  | cons x xs ih =>
      intro q qs h
      by_cases hx : p x
      · rw [List.filter_cons_of_pos hx] at h
        injection h with h1 h2
        subst h1
        exact ⟨[], xs, by simp, by simp, hx, h2⟩
      · rw [List.filter_cons_of_neg hx] at h
        obtain ⟨l1, l2, heq, h1, hq, h2⟩ := ih q qs h
        refine ⟨x :: l1, l2, by simp [heq], ?_, hq, h2⟩
        intro y hy
        rcases List.mem_cons.mp hy with rfl | hy
        · simpa using hx
        · exact h1 y hy

theorem find?_append_first (r : α → Bool) :
    ∀ (l1 : List α) (y : α) (l2 : List α), (∀ x ∈ l1, r x = false) → r y = true →
      (l1 ++ y :: l2).find? r = some y := by
  intro l1
  induction l1 with
  | nil => intro y l2 _ hy; simp [List.find?_cons_of_pos _ hy]
  | cons x xs ih =>
      intro y l2 h1 hy
      have hx : r x = false := h1 x (by simp)
      simp only [List.cons_append]
      rw [List.find?_cons_of_neg _ (by simp [hx])]
      exact ih y l2 (fun z hz => h1 z (by simp [hz])) hy

namespace Call

theorem saveDuration_participants (c : Call) : c.saveDuration.participants = c.participants := by
  unfold saveDuration; split <;> rfl

theorem saveDuration_host (c : Call) : c.saveDuration.host = c.host := by
  unfold saveDuration; split <;> rfl

theorem saveDuration_status (c : Call) : c.saveDuration.status = c.status := by
  unfold saveDuration; split <;> rfl

theorem saveDuration_startedAt (c : Call) : c.saveDuration.startedAt = c.startedAt := by
  unfold saveDuration; split <;> rfl

theorem saveDuration_endedAt (c : Call) : c.saveDuration.endedAt = c.endedAt := by
  unfold saveDuration; split <;> rfl

theorem saveDuration_settings (c : Call) : c.saveDuration.settings = c.settings := by
  unfold saveDuration; split <;> rfl

theorem saveDuration_maxParticipants (c : Call) : c.saveDuration.maxParticipants = c.maxParticipants := by
  unfold saveDuration; split <;> rfl

theorem saveDuration_invitations (c : Call) : c.saveDuration.invitations = c.invitations := by
  unfold saveDuration; split <;> rfl

theorem saveDuration_chatMessages (c : Call) : c.saveDuration.chatMessages = c.chatMessages := by
  unfold saveDuration; split <;> rfl

theorem saveDuration_analytics (c : Call) : c.saveDuration.analytics = c.analytics := by
  unfold saveDuration; split <;> rfl

theorem save_participants (c : Call) : (save c).participants = c.participants :=
  saveDuration_participants c

theorem save_host (c : Call) : (save c).host = c.host :=
  saveDuration_host c

theorem save_status (c : Call) : (save c).status = c.status :=
  saveDuration_status c

theorem save_startedAt (c : Call) : (save c).startedAt = c.startedAt :=
  saveDuration_startedAt c

theorem save_endedAt (c : Call) : (save c).endedAt = c.endedAt :=
  saveDuration_endedAt c

theorem save_settings (c : Call) : (save c).settings = c.settings :=
  saveDuration_settings c

theorem save_maxParticipants (c : Call) : (save c).maxParticipants = c.maxParticipants :=
  saveDuration_maxParticipants c

theorem save_invitations (c : Call) : (save c).invitations = c.invitations :=
  saveDuration_invitations c

theorem save_chatMessages (c : Call) : (save c).chatMessages = c.chatMessages :=
  saveDuration_chatMessages c

theorem activeParticipantsCount_save (c : Call) :
    (save c).activeParticipantsCount = c.activeParticipantsCount := by
  unfold activeParticipantsCount
  rw [save_participants]

theorem save_duration_of_ended (c : Call) (e : Int) (h1 : c.status = .ended)
    (h2 : c.endedAt = some e) :
    (save c).duration = some ((e - c.startedAt).fdiv 1000) := by
  show c.saveDuration.duration = _
  unfold saveDuration
  rw [h1, h2]

theorem save_totalMessages (c : Call) :
    (save c).analytics.totalMessages = c.chatMessages.length := by
  show c.saveDuration.chatMessages.length = _
  rw [saveDuration_chatMessages]

theorem save_save (c : Call) : save (save c) = save c := by
  cases hs : c.status <;> cases he : c.endedAt <;>
    simp [save, saveDuration, activeParticipantsCount, hs, he, max_assoc, max_self]

end Call

namespace Call

theorem removeParticipant_host (c : Call) (u : Nat) (now : Int) :
    (removeParticipant c u now).host = c.host := by
  unfold removeParticipant
  split
  · split <;> rw [save_host]
  · rw [save_host]

theorem removeParticipant_startedAt (c : Call) (u : Nat) (now : Int) :
    (removeParticipant c u now).startedAt = c.startedAt := by
  unfold removeParticipant
  split
  · split <;> rw [save_startedAt]
  · rw [save_startedAt]

theorem removeParticipant_status (c : Call) (u : Nat) (now : Int) :
    (removeParticipant c u now).status = c.status := by
  unfold removeParticipant
  split
  · split <;> rw [save_status]
  · rw [save_status]

theorem removeParticipant_map_userId (c : Call) (u : Nat) (now : Int) :
    ((removeParticipant c u now).participants.map (·.userId)) =
      c.participants.map (·.userId) := by
  unfold removeParticipant
  split
  · split
    · rw [save_participants]
      exact map_updateFirst (fun q => q.userId == u) (deactivate now) (·.userId)
        (fun a => rfl) c.participants
    · rw [save_participants]
  · rw [save_participants]

theorem addParticipant_map_userId_of_found (c : Call) (u : Nat) (role : Role)
    (perms : Permissions) (now : Int) (x : Participant)
    (h : c.participants.find? (fun p => p.userId == u) = some x) :
    ((addParticipant c u role perms now).participants.map (·.userId)) =
      c.participants.map (·.userId) := by
  simp only [addParticipant, h]
  split
  · rw [save_participants]
  · rw [save_participants]
    exact map_updateFirst (fun p => p.userId == u) (reactivate now) (·.userId)
      (fun a => rfl) c.participants

theorem addParticipant_map_userId_of_not_found (c : Call) (u : Nat) (role : Role)
    (perms : Permissions) (now : Int)
    (h : c.participants.find? (fun p => p.userId == u) = none) :
    ((addParticipant c u role perms now).participants.map (·.userId)) =
      c.participants.map (·.userId) ++ [u] := by
  simp only [addParticipant, h]
  rw [save_participants]
  simp

/-- All participants inactive makes the active count zero and conversely. -/
theorem activeParticipantsCount_eq_zero_iff (c : Call) :
    c.activeParticipantsCount = 0 ↔ ∀ p ∈ c.participants, p.isActive = false := by
  unfold activeParticipantsCount
  rw [List.length_eq_zero, List.filter_eq_nil_iff]
  constructor
  · intro h p hp
    simpa using h p hp
  · intro h p hp
    simp [h p hp]

/-- When every participant is already inactive, a leave only saves the
document. -/
theorem removeParticipant_of_all_inactive (c : Call) (u : Nat) (now : Int)
    (h : ∀ p ∈ c.participants, p.isActive = false) :
    removeParticipant c u now = save c := by
  unfold removeParticipant
  cases hf : c.participants.find? (fun p => p.userId == u) with
  | none => rfl
  | some p =>
      have hmem := List.mem_of_find?_eq_some hf
      simp [h p hmem]

end Call

/-- User uniqueness is preserved by one join or leave step. -/
theorem usersNodup_applyOp (c : Call) (op : COp) (h : usersNodup c) :
    usersNodup (applyOp c op) := by
  cases op with
  | leave u t =>
      unfold usersNodup
      rw [applyOp, Call.removeParticipant_map_userId]
      exact h
  | join u t =>
      unfold usersNodup
      cases hf : c.participants.find? (fun p => p.userId == u) with
      | some x =>
          rw [applyOp, Call.addParticipant_map_userId_of_found c u _ _ _ x hf]
          exact h
      | none =>
          rw [applyOp, Call.addParticipant_map_userId_of_not_found c u _ _ _ hf]
          rw [List.nodup_append]
          refine ⟨h, List.nodup_singleton u, ?_⟩
          intro a ha hb
          simp only [List.mem_singleton] at hb
          subst hb
          rw [List.mem_map] at ha
          obtain ⟨p, hp, hpu⟩ := ha
          have := List.find?_eq_none.mp hf p hp
          simp [hpu] at this

/-- User uniqueness is preserved by any sequence of joins and leaves. -/
theorem usersNodup_runOps (c : Call) (ops : List COp) (h : usersNodup c) :
    usersNodup (runOps c ops) := by
  induction ops generalizing c with
  | nil => exact h
  | cons op ops ih =>
      rw [runOps, List.foldl_cons]
      exact ih _ (usersNodup_applyOp c op h)

/-- With pairwise distinct user ids, at most one active entry matches a
given user. -/
theorem countP_active_le_one (l : List Participant) (u : Nat)
    (h : (l.map (·.userId)).Nodup) :
    (l.countP fun p => p.isActive && p.userId == u) ≤ 1 := by
  induction l with
  | nil => simp
  | cons p l ih =>
      rw [List.map_cons, List.nodup_cons] at h
      rw [List.countP_cons]
      by_cases hp : (p.isActive && p.userId == u) = true
      · have hpu : p.userId = u := by
          have := (Bool.and_eq_true _ _).mp hp
          simpa using this.2
        have hz : (l.countP fun q => q.isActive && q.userId == u) = 0 := by
          rw [List.countP_eq_zero]
          intro q hq hqq
          have hqu : q.userId = u := by
            have := (Bool.and_eq_true _ _).mp hqq
            simpa using this.2
          exact h.1 (by rw [hpu, ← hqu]; exact List.mem_map_of_mem _ hq)
        simp [hz, hp]
      · have hle := ih h.2
        simp [hp]
        exact hle

namespace Call

theorem endCall_status (c : Call) (now : Int) : (endCall c now).status = .ended := by
  unfold endCall; rw [save_status]

theorem endCall_endedAt (c : Call) (now : Int) : (endCall c now).endedAt = some now := by
  unfold endCall; rw [save_endedAt]

theorem endCall_startedAt (c : Call) (now : Int) : (endCall c now).startedAt = c.startedAt := by
  unfold endCall; rw [save_startedAt]

theorem endCall_duration (c : Call) (now : Int) :
    (endCall c now).duration = some ((now - c.startedAt).fdiv 1000) := by
  unfold endCall
  exact save_duration_of_ended _ now rfl rfl

end Call

/-- When nobody is active after the removal, leaveCall takes the auto-end
branch: the document is ended and the events are user-left-call followed
by call-ended. -/
theorem leaveCall_of_no_active (c : Call) (u : Nat) (now : Int)
    (h : (Call.removeParticipant c u now).activeParticipantsCount = 0) :
    CallController.leaveCall c u now =
      (Call.endCall (Call.removeParticipant c u now) now,
       [CallEvent.userLeftCall u, CallEvent.callEndedNoActive]) := by
  simp [CallController.leaveCall, h]

/-- C5: if no active participants remain after a Leave operation, the
session status becomes ended, endedAt is set to the leave time, and
duration is the floor of the elapsed milliseconds between startedAt and
endedAt divided by 1000. -/
theorem C5_last_leave_ends_call (c : Call) (u : Nat) (now : Int)
    (h : (Call.removeParticipant c u now).activeParticipantsCount = 0) :
    (CallController.leaveCall c u now).1.status = .ended ∧
    (CallController.leaveCall c u now).1.endedAt = some now ∧
    (CallController.leaveCall c u now).1.duration = some ((now - c.startedAt).fdiv 1000) ∧
    (CallController.leaveCall c u now).2 =
      [CallEvent.userLeftCall u, CallEvent.callEndedNoActive] := by
  rw [leaveCall_of_no_active c u now h]
  refine ⟨Call.endCall_status _ _, Call.endCall_endedAt _ _, ?_, rfl⟩
  rw [Call.endCall_duration, Call.removeParticipant_startedAt]

/-- C5 witness: the sole participant of soloCall leaves at 30000 and the
call ends with duration 30 seconds. -/
theorem C5_witness :
    (CallController.leaveCall soloCall 1 30000).1.status = .ended ∧
    (CallController.leaveCall soloCall 1 30000).1.endedAt = some 30000 ∧
    (CallController.leaveCall soloCall 1 30000).1.duration = some 30 := by
  have h := C5_last_leave_ends_call soloCall 1 30000 (by decide)
  refine ⟨h.1, h.2.1, ?_⟩
  rw [h.2.2.1]
  decide

/-- C10: a Leave request on an active or scheduled session with zero
active participants ends the session, whoever the requesting user is,
participant of the session or not. -/
theorem C10_leave_on_empty_session_ends (c : Call) (u : Nat) (now : Int)
    (hstatus : c.status = .active ∨ c.status = .scheduled)
    (h0 : c.activeParticipantsCount = 0) :
    (CallController.leaveCall c u now).1.status = .ended ∧
    (CallController.leaveCall c u now).1.endedAt = some now ∧
    (CallController.leaveCall c u now).2 =
      [CallEvent.userLeftCall u, CallEvent.callEndedNoActive] := by
  have hall := (Call.activeParticipantsCount_eq_zero_iff c).mp h0
  have h1 : (Call.removeParticipant c u now).activeParticipantsCount = 0 := by
    rw [Call.removeParticipant_of_all_inactive c u now hall, Call.activeParticipantsCount_save]
    exact h0
  rw [leaveCall_of_no_active c u now h1]
  exact ⟨Call.endCall_status _ _, Call.endCall_endedAt _ _, rfl⟩

/-- C10 witness: user 42, who never was a participant, leaves the empty
active call and the session ends. -/
theorem C10_witness :
    (CallController.leaveCall emptyActiveCall 42 7).1.status = .ended ∧
    (CallController.leaveCall emptyActiveCall 42 7).1.endedAt = some 7 := by
  have h := C10_leave_on_empty_session_ends emptyActiveCall 42 7 (Or.inl (by decide)) (by decide)
  exact ⟨h.1, h.2.1⟩

/-- C8: leaving twice in a row is idempotent: the second Leave returns
the very same document, so no participant field changes and the active
count is not decremented twice. -/
theorem C8_double_leave_idempotent (c : Call) (u : Nat) (t₁ t₂ : Int) :
    Call.removeParticipant (Call.removeParticipant c u t₁) u t₂ =
      Call.removeParticipant c u t₁ ∧
    (Call.removeParticipant (Call.removeParticipant c u t₁) u t₂).activeParticipantsCount =
      (Call.removeParticipant c u t₁).activeParticipantsCount := by
  have heq : Call.removeParticipant (Call.removeParticipant c u t₁) u t₂ =
      Call.removeParticipant c u t₁ := by
    cases hf : c.participants.find? (fun p => p.userId == u) with
    | none =>
        have h1 : Call.removeParticipant c u t₁ = Call.save c := by
          simp only [Call.removeParticipant, hf]
        have h2 : (Call.save c).participants.find? (fun p => p.userId == u) = none := by
          rw [Call.save_participants]; exact hf
        rw [h1]
        simp only [Call.removeParticipant, h2]
        exact Call.save_save c
    | some p =>
        by_cases hact : p.isActive
        · have h1 : Call.removeParticipant c u t₁ =
              Call.save { c with participants := updateFirst (fun q => q.userId == u) (Call.deactivate t₁) c.participants } := by
            simp only [Call.removeParticipant, hf]
            simp [hact]
          have h2 : (Call.save { c with participants := updateFirst (fun q => q.userId == u) (Call.deactivate t₁) c.participants }).participants.find? (fun q => q.userId == u) = some (Call.deactivate t₁ p) := by
            rw [Call.save_participants]
            exact find?_updateFirst (fun q => q.userId == u) (Call.deactivate t₁)
              (fun a ha => ha) c.participants p hf
          rw [h1]
          simp only [Call.removeParticipant, h2]
          have h3 : (Call.deactivate t₁ p).isActive = false := rfl
          simp [h3]
          exact Call.save_save _
        · have h1 : Call.removeParticipant c u t₁ = Call.save c := by
            simp only [Call.removeParticipant, hf]
            simp [hact]
          have h2 : (Call.save c).participants.find? (fun p => p.userId == u) = some p := by
            rw [Call.save_participants]; exact hf
          rw [h1]
          simp only [Call.removeParticipant, h2]
          simp [hact]
          exact Call.save_save c
  exact ⟨heq, by rw [heq]⟩

/-- C1 (amended): when the host leaves a call in which other active
participants remain, exactly one of them is promoted, namely the FIRST
remaining active participant in participant-array order (which is the
earliest joinedAt only when array order happens to agree with joinedAt
order): the document's host becomes that participant, their entry gets
role host and full permissions, every other entry is kept, and a
host-changed event naming them is emitted. -/
theorem C1_host_failover_first_in_array (c : Call) (u : Nat) (now : Int)
    (q : Participant) (qs : List Participant)
    (hnodup : usersNodup c) (hhost : c.host = u)
    (hrem : ((Call.removeParticipant c u now).participants.filter
        fun p => p.isActive && !(p.userId == u)) = q :: qs) :
    (CallController.leaveCall c u now).1.host = q.userId ∧
    (CallController.leaveCall c u now).2 =
      [CallEvent.userLeftCall u, CallEvent.hostChanged q.userId] ∧
    (CallController.leaveCall c u now).1.participants.find?
        (fun p => p.userId == q.userId) = some (promoteToHost q) ∧
    (CallController.leaveCall c u now).1.participants.length =
      (Call.removeParticipant c u now).participants.length ∧
    ∀ p ∈ (Call.removeParticipant c u now).participants,
      p.userId ≠ q.userId → p ∈ (CallController.leaveCall c u now).1.participants := by
  obtain ⟨l1, l2, hdecomp, hl1, hq, hl2⟩ :=
    filter_eq_cons_split _ (Call.removeParticipant c u now).participants q qs hrem
  have hqa : q.isActive = true := by
    have := (Bool.and_eq_true _ _).mp hq
    exact this.1
  have hmem : q ∈ (Call.removeParticipant c u now).participants := by
    rw [hdecomp]; exact List.mem_append_right _ (List.mem_cons_self _ _)
  have hup : updateFirst (fun p => p.isActive && !(p.userId == u)) promoteToHost
      (Call.removeParticipant c u now).participants = l1 ++ promoteToHost q :: l2 := by
    rw [hdecomp]
    exact updateFirst_append _ _ l1 q l2 hl1 hq
  have hnodup1 : ((Call.removeParticipant c u now).participants.map (·.userId)).Nodup := by
    rw [Call.removeParticipant_map_userId]; exact hnodup
  have hl1ne : ∀ x ∈ l1, (x.userId == q.userId) = false := by
    intro x hx
    rw [hdecomp] at hnodup1
    rw [List.map_append, List.map_cons, List.nodup_append] at hnodup1
    have hdisj := hnodup1.2.2
    have : x.userId ∉ q.userId :: l2.map (·.userId) :=
      hdisj (List.mem_map_of_mem _ hx)
    simp only [List.mem_cons, not_or] at this
    simpa using this.1
  have hfind : (l1 ++ promoteToHost q :: l2).find? (fun p => p.userId == q.userId) =
      some (promoteToHost q) :=
    find?_append_first _ l1 (promoteToHost q) l2 hl1ne (by simp [promoteToHost])
  have hpos : 0 < (Call.removeParticipant c u now).activeParticipantsCount := by
    have hmf : q ∈ (Call.removeParticipant c u now).participants.filter (fun p => p.isActive) :=
      List.mem_filter.mpr ⟨hmem, by simp [hqa]⟩
    unfold Call.activeParticipantsCount
    exact List.length_pos.mpr (List.ne_nil_of_mem hmf)
  have hhost1 : (Call.removeParticipant c u now).host = u := by
    rw [Call.removeParticipant_host]; exact hhost
  have hne : ¬ ((Call.save { Call.removeParticipant c u now with
      host := q.userId,
      participants := updateFirst (fun p => p.isActive && !(p.userId == u)) promoteToHost (Call.removeParticipant c u now).participants }).activeParticipantsCount = 0) := by
    rw [Call.activeParticipantsCount_save]
    show ¬ ((updateFirst (fun p => p.isActive && !(p.userId == u)) promoteToHost (Call.removeParticipant c u now).participants).filter (fun p => p.isActive)).length = 0
    rw [hup]
    intro h0
    rw [List.length_eq_zero, List.filter_eq_nil_iff] at h0
    have hfalse := h0 (promoteToHost q) (List.mem_append_right _ (List.mem_cons_self _ _))
    exact hfalse hqa
  have hresult : CallController.leaveCall c u now =
      (Call.save { Call.removeParticipant c u now with
        host := q.userId,
        participants := updateFirst (fun p => p.isActive && !(p.userId == u)) promoteToHost (Call.removeParticipant c u now).participants },
       [CallEvent.userLeftCall u, CallEvent.hostChanged q.userId]) := by
    simp only [CallController.leaveCall, hhost1, hrem, beq_self_eq_true, hpos, hne]
    simp
    exact hne
  refine ⟨?_, ?_, ?_, ?_, ?_⟩
  · rw [hresult]
    show (Call.save _).host = q.userId
    rw [Call.save_host]
  · rw [hresult]
  · rw [hresult]
    show (Call.save _).participants.find? _ = _
    rw [Call.save_participants]
    show (updateFirst _ _ _).find? _ = _
    rw [hup]
    exact hfind
  · rw [hresult]
    show (Call.save _).participants.length = _
    rw [Call.save_participants]
    show (updateFirst _ _ _).length = _
    rw [updateFirst_length]
  · intro p hp hpne
    rw [hresult]
    show p ∈ (Call.save _).participants
    rw [Call.save_participants]
    show p ∈ updateFirst _ _ _
    rw [hup]
    rw [hdecomp] at hp
    rcases List.mem_append.mp hp with h1 | h2
    · exact List.mem_append_left _ h1
    · rcases List.mem_cons.mp h2 with rfl | h3
      · exact absurd rfl hpne
      · exact List.mem_append_right _ (List.mem_cons_of_mem _ h3)

/-- C1 counterexample: in rejoinCall the remaining active participants
after host 1 leaves are user 2 (joinedAt 40, first in array order) and
user 3 (joinedAt 20, the earliest joinedAt); the code promotes user 2
and not user 3, so promotion by earliest joinedAt is false. -/
theorem C1_counterexample :
    (CallController.leaveCall rejoinCall 1 50).1.host = 2 ∧
    specEarliestRemainingHost (Call.removeParticipant rejoinCall 1 50) 1 = some 3 ∧
    CallEvent.hostChanged 2 ∈ (CallController.leaveCall rejoinCall 1 50).2 ∧
    ¬ (CallController.leaveCall rejoinCall 1 50).1.host = 3 := by decide

/-- C1 witness: the amended theorem applied to rejoinCall, whose
promoted participant is user 2 with role host and full permissions. -/
theorem C1_witness :
    (CallController.leaveCall rejoinCall 1 50).1.host = rejoinSecond.userId ∧
    (CallController.leaveCall rejoinCall 1 50).1.participants.find?
        (fun p => p.userId == rejoinSecond.userId) = some (promoteToHost rejoinSecond) := by
  have h := C1_host_failover_first_in_array rejoinCall 1 50 rejoinSecond [rejoinThird]
    (by unfold usersNodup; decide) (by decide) (by decide)
  exact ⟨h.1, h.2.2.1⟩

/-- C2 counterexample: endedCall is already ended (endedAt 500), yet End
by host 1 at 600 succeeds and re-stamps endedAt to 600, instead of
failing with InvalidState and leaving the document unchanged. -/
theorem C2_counterexample :
    endedCall.status = CallStatus.ended ∧
    CallController.endCall endedCall 1 600 ≠ .error CError.InvalidState ∧
    ((CallController.endCall endedCall 1 600).toOption.map fun r => r.1.endedAt) =
      some (some 600) ∧
    endedCall.endedAt = some 500 := by
  refine ⟨by decide, ?_, by decide, by decide⟩
  intro h
  rw [show CallController.endCall endedCall 1 600 =
      Except.ok (Call.endCall endedCall 600, [CallEvent.callEndedBy 1]) from rfl] at h
  exact Except.noConfusion h

/-- C2 (amended): ending an already ended or cancelled session is never
rejected with InvalidState: the host and moderator permission check is
the only gate; the host, or an actor whose participant entry carries
role moderator, re-ends the call, re-stamping endedAt and recomputing
duration, while every actor who is neither the host nor a moderator
participant fails with Forbidden. -/
theorem C2_end_terminal_not_rejected (c : Call) (u : Nat) (now : Int)
    (hterm : c.status = .ended ∨ c.status = .cancelled) :
    CallController.endCall c u now ≠ .error CError.InvalidState ∧
    ((c.host = u ∨
        ((c.participants.find? fun p => p.userId == u).map fun p => p.role) = some .moderator) →
      CallController.endCall c u now =
        .ok (Call.endCall c now, [CallEvent.callEndedBy u]) ∧
      (Call.endCall c now).status = .ended ∧
      (Call.endCall c now).endedAt = some now ∧
      (Call.endCall c now).duration = some ((now - c.startedAt).fdiv 1000)) ∧
    (c.host ≠ u →
      (∀ p, (c.participants.find? fun q => q.userId == u) = some p → p.role ≠ .moderator) →
      CallController.endCall c u now = .error CError.Forbidden) := by
  refine ⟨?_, ?_, ?_⟩
  · clear hterm
    unfold CallController.endCall
    by_cases hcond : (!(c.host == u) &&
        ((c.participants.find? fun p => p.userId == u).isNone ||
          !(((c.participants.find? fun p => p.userId == u).map fun x => x.role).getD Role.participant == Role.moderator))) = true
    · simp [hcond]
    · simp [hcond]
  · intro hauth
    refine ⟨?_, Call.endCall_status _ _, Call.endCall_endedAt _ _, Call.endCall_duration _ _⟩
    rcases hauth with hhost | hmod
    · have hh : (c.host == u) = true := by simp [hhost]
      unfold CallController.endCall
      simp [hh]
    · rw [Option.map_eq_some'] at hmod
      obtain ⟨p, hf, hrole⟩ := hmod
      unfold CallController.endCall
      simp [hf, hrole]
  · intro hhost hmodn
    have h1 : (c.host == u) = false := by simp [hhost]
    cases hf : c.participants.find? fun q => q.userId == u with
    | none =>
        unfold CallController.endCall
        simp [h1, hf]
    | some p =>
        have hr : (p.role == Role.moderator) = false :=
          beq_eq_false_iff_ne.mpr (hmodn p hf)
        unfold CallController.endCall
        simp [h1, hf, hr]

/-- C2 witness: the amended theorem applied to endedModCall: the host 1
and the moderator participant 2 both re-end the already ended call with
endedAt 600, while the plain participant 3 is refused with Forbidden. -/
theorem C2_witness :
    CallController.endCall endedModCall 1 600 =
      .ok (Call.endCall endedModCall 600, [CallEvent.callEndedBy 1]) ∧
    (Call.endCall endedModCall 600).endedAt = some 600 ∧
    CallController.endCall endedModCall 2 600 =
      .ok (Call.endCall endedModCall 600, [CallEvent.callEndedBy 2]) ∧
    CallController.endCall endedModCall 3 600 = .error CError.Forbidden := by
  have h1 := C2_end_terminal_not_rejected endedModCall 1 600 (Or.inl (by decide))
  have h2 := C2_end_terminal_not_rejected endedModCall 2 600 (Or.inl (by decide))
  have h3 := C2_end_terminal_not_rejected endedModCall 3 600 (Or.inl (by decide))
  refine ⟨(h1.2.1 (Or.inl (by decide))).1, (h1.2.1 (Or.inl (by decide))).2.2.1,
    (h2.2.1 (Or.inr (by decide))).1, h3.2.2 (by decide) ?_⟩
  intro p hp
  rw [show (endedModCall.participants.find? fun q => q.userId == 3) =
      some ({ userId := 3, joinedAt := 0, isActive := false } : Participant) from rfl] at hp
  injection hp with hp
  subst hp
  decide

theorem setAdd_mem (s : List Nat) (u : Nat) : u ∈ setAdd s u := by
  unfold setAdd
  split
  · next hc => exact List.mem_of_elem_eq_true hc
  · exact List.mem_append_right _ (List.mem_cons_self _ _)

theorem mem_roomsAdd (ar : List (String × List Nat)) (room : String) (u : Nat) :
    u ∈ (roomsLookup (roomsAdd ar room u) room).getD [] := by
  induction ar with
  | nil => simp [roomsAdd, roomsLookup, setAdd_mem]
  | cons e es ih =>
      rcases e with ⟨k, s⟩
      by_cases he : (k == room) = true
      · rw [show roomsAdd ((k, s) :: es) room u = (k, setAdd s u) :: es from by
          simp [roomsAdd, he]]
        rw [show roomsLookup ((k, setAdd s u) :: es) room = some (setAdd s u) from by
          simp [roomsLookup, List.find?_cons, he]]
        exact setAdd_mem s u
      · rw [show roomsAdd ((k, s) :: es) room u = (k, s) :: roomsAdd es room u from by
          simp [roomsAdd, he]]
        rw [show roomsLookup ((k, s) :: roomsAdd es room u) room =
            roomsLookup (roomsAdd es room u) room from by
          simp [roomsLookup, List.find?_cons, he]]
        exact ih

/-- C3 counterexample: with the ended session endedRoomCall persisted in
the store, a join-room event for its channel from user 7 still
subscribes the socket, records 7 in the in-memory room registry,
broadcasts user-joined and unicasts the roster, although CanJoin on the
persisted document answers no; the store is returned unchanged and no
Join effect reaches the document (user 7 never becomes a participant). -/
theorem C3_counterexample :
    Call.canUserJoin endedRoomCall 7 =
      { canJoin := false, reason := some "Call is not active" } ∧
    (relayJoinRoom [endedRoomCall] [] [] 7 "room1" "d").1 = [endedRoomCall] ∧
    (relayJoinRoom [endedRoomCall] [] [] 7 "room1" "d").2.joinedRoom = "room1" ∧
    roomsLookup (relayJoinRoom [endedRoomCall] [] [] 7 "room1" "d").2.activeRooms "room1" =
      some [7] ∧
    (relayJoinRoom [endedRoomCall] [] [] 7 "room1" "d").2.events =
      [SocketEvent.userJoined "room1" 7 7 "d", SocketEvent.roomParticipants 7 "room1" []] ∧
    (endedRoomCall.participants.any fun p => p.userId == 7) = false := by decide

/-- C3 (amended): the join-room relay handler touches only the in-memory
registry: it subscribes the socket to the room, inserts the user into
the room's subscriber set, emits user-joined to the room excluding the
sender followed by a roster unicast to the caller that excludes the
caller, and the persisted call store passes through unchanged, with no
CanJoin or Join invocation on any session document. -/
theorem C3_join_room_bypasses_store (store : List Call)
    (cu : List (Nat × ConnInfo)) (ar : List (String × List Nat)) (u : Nat)
    (room : String) (ud : String) :
    (relayJoinRoom store cu ar u room ud).1 = store ∧
    (relayJoinRoom store cu ar u room ud).2.joinedRoom = room ∧
    u ∈ (roomsLookup (relayJoinRoom store cu ar u room ud).2.activeRooms room).getD [] ∧
    ∃ roster,
      (relayJoinRoom store cu ar u room ud).2.events =
        [SocketEvent.userJoined room u u ud, SocketEvent.roomParticipants u room roster] ∧
      ∀ pr ∈ roster, pr.1 ≠ u := by
  refine ⟨rfl, rfl, mem_roomsAdd ar room u, ?_⟩
  refine ⟨_, rfl, ?_⟩
  intro pr hpr
  rw [List.mem_map] at hpr
  obtain ⟨id, hid, rfl⟩ := hpr
  have hne := (List.mem_filter.mp hid).2
  simpa using hne

/-- C4 counterexample: lockedCall has lockRoom set, user 5 has only an
INACTIVE participant entry and no invitation, so the claim would refuse
the join with "Room is locked", yet CanJoin answers yes. -/
theorem C4_counterexample :
    lockedCall.settings.lockRoom = true ∧
    (lockedCall.participants.filter fun p => p.isActive) = [] ∧
    lockedCall.invitations = [] ∧
    (lockedCall.participants.any fun p => p.userId == 5) = true ∧
    Call.canUserJoin lockedCall 5 = { canJoin := true, reason := none } := by decide

/-- C4 (amended): CanJoin allows only sessions in status active or
scheduled whose active count is below maxParticipants; a full call is
refused with "Call is full"; with lockRoom set, a user with no
participant entry of any activity and no accepted invitation is refused
with "Room is locked", while a participant entry whether active or
inactive, or an accepted invitation, passes; and once a pending
invitation is accepted, CanJoin answers yes. -/
theorem C4_canUserJoin_characterization (c : Call) (u : Nat) (now : Int) :
    ((Call.canUserJoin c u).canJoin = true →
      (c.status = .active ∨ c.status = .scheduled) ∧
      c.activeParticipantsCount < c.maxParticipants) ∧
    ((c.status = .active ∨ c.status = .scheduled) →
      c.activeParticipantsCount ≥ c.maxParticipants →
      Call.canUserJoin c u = { canJoin := false, reason := some "Call is full" }) ∧
    ((c.status = .active ∨ c.status = .scheduled) →
      c.activeParticipantsCount < c.maxParticipants →
      c.settings.lockRoom = true →
      (c.participants.any fun p => p.userId == u) = false →
      (c.invitations.any fun inv => inv.userId == u && inv.status == .accepted) = false →
      Call.canUserJoin c u = { canJoin := false, reason := some "Room is locked" }) ∧
    ((c.status = .active ∨ c.status = .scheduled) →
      c.activeParticipantsCount < c.maxParticipants →
      ((c.participants.any fun p => p.userId == u) = true ∨
       (c.invitations.any fun inv => inv.userId == u && inv.status == .accepted) = true) →
      Call.canUserJoin c u = { canJoin := true, reason := none }) ∧
    (∀ c', (c.status = .active ∨ c.status = .scheduled) →
      c.activeParticipantsCount < c.maxParticipants →
      CallController.respondToInvitation c u .accepted now = .ok c' →
      Call.canUserJoin c' u = { canJoin := true, reason := none }) := by
  refine ⟨?_, ?_, ?_, ?_, ?_⟩
  · intro hcan
    by_cases h1 : c.status = .active ∨ c.status = .scheduled
    · refine ⟨h1, ?_⟩
      by_cases h2 : c.activeParticipantsCount < c.maxParticipants
      · exact h2
      · exfalso
        have hge : c.activeParticipantsCount ≥ c.maxParticipants := Nat.not_lt.mp h2
        have hsf : (!(c.status == CallStatus.active) && !(c.status == CallStatus.scheduled)) = false := by
          rcases h1 with h | h <;> simp [h]
        simp [Call.canUserJoin, hsf, hge] at hcan
    · exfalso
      rw [not_or] at h1
      have hst : (!(c.status == CallStatus.active) && !(c.status == CallStatus.scheduled)) = true := by
        simp [beq_eq_false_iff_ne.mpr h1.1, beq_eq_false_iff_ne.mpr h1.2]
      simp [Call.canUserJoin, hst] at hcan
  · intro hss hge
    have hsf : (!(c.status == CallStatus.active) && !(c.status == CallStatus.scheduled)) = false := by
      rcases hss with h | h <;> simp [h]
    simp [Call.canUserJoin, hsf, hge]
  · intro hss hlt hlock hpart hinv
    have hsf : (!(c.status == CallStatus.active) && !(c.status == CallStatus.scheduled)) = false := by
      rcases hss with h | h <;> simp [h]
    simp [Call.canUserJoin, hsf, Nat.not_le.mpr hlt, hlock, hpart, hinv]
  · intro hss hlt hor
    have hsf : (!(c.status == CallStatus.active) && !(c.status == CallStatus.scheduled)) = false := by
      rcases hss with h | h <;> simp [h]
    by_cases hlock : c.settings.lockRoom = true
    · rcases hor with h | h <;>
        simp [Call.canUserJoin, hsf, Nat.not_le.mpr hlt, hlock, h]
    · simp only [Bool.not_eq_true] at hlock
      simp [Call.canUserJoin, hsf, Nat.not_le.mpr hlt, hlock]
  · intro c' hss hlt hresp
    cases hf : c.invitations.find? (fun inv => inv.userId == u && inv.status == .pending) with
    | none =>
        exfalso
        simp only [CallController.respondToInvitation, hf] at hresp
        exact Except.noConfusion hresp
    | some inv =>
        have hred : CallController.respondToInvitation c u .accepted now =
            Except.ok (Call.save { c with invitations := updateFirst (fun i => i.userId == u && i.status == InvStatus.pending) (fun i => { i with status := InvStatus.accepted, respondedAt := some now }) c.invitations }) := by
          simp only [CallController.respondToInvitation, hf]
          rfl
        rw [hred, Except.ok.injEq] at hresp
        subst hresp
        have hiu : (inv.userId == u) = true := by
          have := List.find?_some hf
          exact ((Bool.and_eq_true _ _).mp this).1
        have hasInv : ((Call.save { c with invitations := updateFirst (fun i => i.userId == u && i.status == .pending) (fun i => { i with status := .accepted, respondedAt := some now }) c.invitations }).invitations.any
            fun i => i.userId == u && i.status == InvStatus.accepted) = true := by
          rw [Call.save_invitations]
          exact any_updateFirst_of_find? _ _ _ c.invitations inv hf (by simp [hiu])
        have hsf : (!(c.status == CallStatus.active) && !(c.status == CallStatus.scheduled)) = false := by
          rcases hss with h | h <;> simp [h]
        have hlt2 : (c.participants.filter fun p => p.isActive).length < c.maxParticipants := hlt
        by_cases hlock : c.settings.lockRoom = true
        · simp [Call.canUserJoin, Call.save_status, Call.save_settings, Call.save_participants,
            Call.save_maxParticipants, Call.activeParticipantsCount, hsf,
            Nat.not_le.mpr hlt, hlt2, hlock, hasInv]
        · simp only [Bool.not_eq_true] at hlock
          simp [Call.canUserJoin, Call.save_status, Call.save_settings, Call.save_participants,
            Call.save_maxParticipants, Call.activeParticipantsCount, hsf,
            Nat.not_le.mpr hlt, hlt2, hlock]

/-- C4 witness: user 6 outside the locked call is refused with
"Room is locked"; after accepting their invitation, CanJoin answers
yes. -/
theorem C4_witness :
    Call.canUserJoin lockedCall 6 = { canJoin := false, reason := some "Room is locked" } ∧
    Call.canUserJoin lockedAcceptedCall 6 = { canJoin := true, reason := none } := by
  constructor
  · exact (C4_canUserJoin_characterization lockedCall 6 0).2.2.1
      (Or.inl (by decide)) (by decide) (by decide) (by decide) (by decide)
  · exact (C4_canUserJoin_characterization lockedInvitedCall 6 5).2.2.2.2 lockedAcceptedCall
      (Or.inl (by decide)) (by decide) rfl

/-- C6: from any document whose participant identities are pairwise
distinct, every sequence of joins and leaves keeps each user at most
once among active participants; a join finding an inactive entry
reactivates that entry in place (the list keeps its length and the entry
becomes isActive with joinedAt now and leftAt cleared) instead of
appending a duplicate, and a join while the user is active leaves the
participant list untouched. -/
theorem C6_participant_uniqueness (c : Call) (ops : List COp) (u : Nat)
    (role : Role) (perms : Permissions) (now : Int) (h : usersNodup c) :
    ((runOps c ops).participants.countP fun p => p.isActive && p.userId == u) ≤ 1 ∧
    (∀ p, c.participants.find? (fun q => q.userId == u) = some p → p.isActive = false →
      (Call.addParticipant c u role perms now).participants.length = c.participants.length ∧
      (Call.addParticipant c u role perms now).participants.find? (fun q => q.userId == u) =
        some (Call.reactivate now p)) ∧
    (∀ p, c.participants.find? (fun q => q.userId == u) = some p → p.isActive = true →
      (Call.addParticipant c u role perms now).participants = c.participants) := by
  refine ⟨?_, ?_, ?_⟩
  · exact countP_active_le_one _ u (usersNodup_runOps c ops h)
  · intro p hf hinact
    rw [show Call.addParticipant c u role perms now = Call.save { c with participants := updateFirst (fun q => q.userId == u) (Call.reactivate now) c.participants } from by
      simp [Call.addParticipant, hf, hinact]]
    constructor
    · rw [Call.save_participants]
      simp [updateFirst_length]
    · rw [Call.save_participants]
      show (updateFirst (fun q => q.userId == u) (Call.reactivate now) c.participants).find? _ = _
      exact find?_updateFirst (fun q => q.userId == u) (Call.reactivate now)
        (fun a ha => ha) c.participants p hf
  · intro p hf hact
    rw [show Call.addParticipant c u role perms now = Call.save c from by
      simp [Call.addParticipant, hf, hact]]
    rw [Call.save_participants]

/-- C6 witness: the uniqueness bound applied after the rejoin history,
and the reactivation clause applied to the inactive entry of user 2. -/
theorem C6_witness :
    ((runOps baseCall rejoinOps).participants.countP fun p => p.isActive && p.userId == 2) ≤ 1 ∧
    (Call.addParticipant (runOps baseCall leftOps) 2 .participant {} 99).participants.find?
        (fun q => q.userId == 2) = some (Call.reactivate 99 leftEntry) := by
  constructor
  · exact (C6_participant_uniqueness baseCall rejoinOps 2 .participant {} 99
      (by unfold usersNodup; decide)).1
  · exact ((C6_participant_uniqueness (runOps baseCall leftOps) [] 2 .participant {} 99
      (by unfold usersNodup; decide)).2.1 leftEntry (by decide) (by decide)).2

theorem addParticipant_invitations (c : Call) (u : Nat) (role : Role)
    (perms : Permissions) (now : Int) :
    (Call.addParticipant c u role perms now).invitations = c.invitations := by
  unfold Call.addParticipant
  split
  · split <;> rw [Call.save_invitations]
  · rw [Call.save_invitations]

/-- Targets that already appear in the invitation or participant lists
contribute no entry to the freshly created invitations. -/
theorem invite_skip_filter_nil (c : Call) (u : Nat) (ids : List Nat) (now : Int) :
    ∀ t, ((c.invitations.any fun inv => inv.userId == t) = true ∨
          (c.participants.any fun q => q.userId == t) = true) →
      ((ids.filter fun s => !(c.invitations.any fun inv => inv.userId == s) && !(c.participants.any fun q => q.userId == s)).map fun s => CallController.mkInvitation s u now).filter (fun i => i.userId == t) = [] := by
  intro t ht
  rw [List.filter_eq_nil_iff]
  intro x hx
  rw [List.mem_map] at hx
  obtain ⟨s, hs, rfl⟩ := hx
  have hsp := (List.mem_filter.mp hs).2
  rw [Bool.and_eq_true, Bool.not_eq_true', Bool.not_eq_true'] at hsp
  show ¬((CallController.mkInvitation s u now).userId == t) = true
  intro hst
  have hseq : s = t := by
    simpa [CallController.mkInvitation] using hst
  subst hseq
  rcases ht with h | h
  · rw [hsp.1] at h
    exact Bool.noConfusion h
  · rw [hsp.2] at h
    exact Bool.noConfusion h

/-- C7 (amended): Invite skips every target having an invitation record
of ANY status (not only pending) or a participant entry whether active
or not; each remaining occurrence of the request list receives one
pending invitation, checked against the pre-request lists, so a fresh
target listed twice in one request receives two pending invitations;
the returned count is the number appended.  Invitations at session
creation are appended verbatim from the requested id list, one per
occurrence, without deduplication. -/
theorem C7_invite_skip_and_duplicates (c : Call) (u : Nat) (ids : List Nat) (now : Int)
    (p : Participant)
    (hids : ids ≠ [])
    (hfind : (c.participants.find? fun q => q.userId == u && q.isActive) = some p)
    (hperm : p.permissions.canInvite = true) :
    (∀ r, CallController.inviteToCall c u ids now = .ok r →
      r.1.invitations = c.invitations ++ ((ids.filter fun t => !(c.invitations.any fun inv => inv.userId == t) && !(c.participants.any fun q => q.userId == t)).map fun t => CallController.mkInvitation t u now) ∧
      r.2.2 = (ids.filter fun t => !(c.invitations.any fun inv => inv.userId == t) && !(c.participants.any fun q => q.userId == t)).length ∧
      (∀ t, ((c.invitations.any fun inv => inv.userId == t) = true ∨
             (c.participants.any fun q => q.userId == t) = true) →
        (r.1.invitations.filter fun i => i.userId == t) = (c.invitations.filter fun i => i.userId == t))) ∧
    (∃ r, CallController.inviteToCall c u ids now = .ok r) ∧
    (∀ c₀ hostId canMake featMax recEn scrEn chan maxP sched stg invIds t2,
      CallController.createCall hostId canMake featMax recEn scrEn chan maxP sched stg invIds t2 = .ok c₀ →
      c₀.invitations = invIds.map fun s => CallController.mkInvitation s hostId t2) := by
  have hne : ids.isEmpty = false := by
    cases ids with
    | nil => exact absurd rfl hids
    | cons a as => rfl
  refine ⟨?_, ?_, ?_⟩
  · intro r hr
    simp only [CallController.inviteToCall, hne, Bool.false_eq_true, if_false, hfind, hperm,
      Bool.not_true] at hr
    split at hr
    · rw [Except.ok.injEq] at hr
      subst hr
      refine ⟨by rw [Call.save_invitations], ?_, ?_⟩
      · show (List.map _ _).length = _
        rw [List.length_map]
      · intro t ht
        rw [Call.save_invitations]
        show ((c.invitations ++ (ids.filter fun s => !(c.invitations.any fun inv => inv.userId == s) && !(c.participants.any fun q => q.userId == s)).map fun s => CallController.mkInvitation s u now).filter fun i => i.userId == t) = _
        rw [List.filter_append, invite_skip_filter_nil c u ids now t ht, List.append_nil]
    · next hlen =>
        rw [Except.ok.injEq] at hr
        subst hr
        rw [List.length_map] at hlen
        have h0 : (ids.filter fun t => !(c.invitations.any fun inv => inv.userId == t) && !(c.participants.any fun q => q.userId == t)).length = 0 :=
          Nat.eq_zero_of_not_pos hlen
        refine ⟨?_, ?_, ?_⟩
        · rw [List.length_eq_zero.mp h0]
          simp
        · show (0 : Nat) = _
          omega
        · intro t ht
          rfl
  · simp only [CallController.inviteToCall, hne, Bool.false_eq_true, if_false, hfind, hperm,
      Bool.not_true]
    split
    · exact ⟨_, rfl⟩
    · exact ⟨_, rfl⟩
  · intro c₀ hostId canMake featMax recEn scrEn chan maxP sched stg invIds t2 hcr
    by_cases hcm : canMake = true
    · simp only [CallController.createCall, hcm, Bool.not_true, Bool.false_eq_true, if_false] at hcr
      rw [Except.ok.injEq] at hcr
      subst hcr
      rw [Call.save_invitations]
      by_cases hinv : invIds.isEmpty = true
      · have hnil : invIds = [] := List.isEmpty_iff.mp hinv
        subst hnil
        simp [addParticipant_invitations]
      · have hbe : invIds.isEmpty = false := by
          cases h : invIds.isEmpty
          · rfl
          · exact absurd h hinv
        simp [hbe, Call.save_invitations, addParticipant_invitations]
    · have hcm2 : canMake = false := by
        cases h : canMake
        · rfl
        · exact absurd h hcm
      simp only [CallController.createCall, hcm2, Bool.not_false, if_true] at hcr
      exact Except.noConfusion hcr

/-- C7 counterexample: user 5 has a DECLINED invitation on record and is
not a participant, so per the claim a fresh pending invitation would be
appended and counted, but the code skips user 5 and returns 0 with the
document untouched; and a single request listing fresh user 6 twice
creates two pending invitations for 6, breaking at-most-one-pending. -/
theorem C7_counterexample :
    (declinedInviteCall.invitations.filter fun i => i.userId == 5 && i.status == InvStatus.pending).length = 0 ∧
    (declinedInviteCall.participants.any fun p => p.userId == 5) = false ∧
    CallController.inviteToCall declinedInviteCall 1 [5] 99 = .ok (declinedInviteCall, [], 0) ∧
    ((CallController.inviteToCall declinedInviteCall 1 [6, 6] 99).toOption.map fun r =>
      ((r.1.invitations.filter fun i => i.userId == 6 && i.status == InvStatus.pending).length, r.2.2)) =
      some (2, 2) := by
  refine ⟨by decide, by decide, rfl, by decide⟩

/-- C7 witness: the amended theorem applied to declinedInviteCall for
the request list 5, 6, 6: the call succeeds and reports two created
invitations (user 5 skipped, user 6 twice). -/
theorem C7_witness :
    (∃ r, CallController.inviteToCall declinedInviteCall 1 [5, 6, 6] 99 = .ok r) ∧
    ((CallController.inviteToCall declinedInviteCall 1 [5, 6, 6] 99).toOption.map fun r => r.2.2) =
      some 2 := by
  have h := C7_invite_skip_and_duplicates declinedInviteCall 1 [5, 6, 6] 99
    { userId := 1, joinedAt := 0, role := .host, permissions := fullPermissions }
    (by decide) (by decide) (by decide)
  refine ⟨h.2.1, ?_⟩
  obtain ⟨r, hr⟩ := h.2.1
  have h3 := (h.1 r hr).2.1
  rw [hr]
  show some r.2.2 = some 2
  rw [h3]
  decide

/-- C9: sending a chat message rejects a blank message with a
validation error; a nonblank message within 1000 characters from a
sender who is not an active participant, or with chat disabled, fails
with Forbidden; a message beyond 1000 characters from an active
participant with chat allowed fails schema validation; and a message of
exactly 1000 characters succeeds, incrementing totalMessages by one. -/
theorem C9_chat_validation (c : Call) (u : Nat) (m : String) (mt : MessageType) (now : Int) :
    ((jsTrim m).length = 0 → CallController.sendChatMessage c u m mt now = .error .ValidationError) ∧
    ((jsTrim m).length ≠ 0 → (jsTrim m).length ≤ 1000 →
      ((c.participants.find? fun p => p.userId == u && p.isActive) = none ∨ c.settings.allowChat = false) →
      CallController.sendChatMessage c u m mt now = .error .Forbidden) ∧
    ((jsTrim m).length > 1000 →
      (c.participants.find? fun p => p.userId == u && p.isActive).isSome = true →
      c.settings.allowChat = true →
      CallController.sendChatMessage c u m mt now = .error .ValidationError) ∧
    ((jsTrim m).length = 1000 →
      (c.participants.find? fun p => p.userId == u && p.isActive).isSome = true →
      c.settings.allowChat = true →
      c.analytics.totalMessages = c.chatMessages.length →
      ∃ c', CallController.sendChatMessage c u m mt now = .ok c' ∧
        c'.analytics.totalMessages = c.analytics.totalMessages + 1) := by
  refine ⟨?_, ?_, ?_, ?_⟩
  · intro h
    simp [CallController.sendChatMessage, h]
  · intro h0 hle hor
    have hbe : ((jsTrim m).length == 0) = false := beq_eq_false_iff_ne.mpr h0
    rcases hor with hf | hchat
    · simp [CallController.sendChatMessage, hbe, hf]
    · cases hf2 : c.participants.find? fun p => p.userId == u && p.isActive with
      | none => simp [CallController.sendChatMessage, hbe, hf2]
      | some part => simp [CallController.sendChatMessage, hbe, hf2, hchat]
  · intro hgt hsome hchat
    obtain ⟨part, hf⟩ := Option.isSome_iff_exists.mp hsome
    have h0 : (jsTrim m).length ≠ 0 := by omega
    have hbe : ((jsTrim m).length == 0) = false := beq_eq_false_iff_ne.mpr h0
    simp [CallController.sendChatMessage, Call.addChatMessage, hbe, hf, hchat, hgt]
  · intro h1000 hsome hchat htm
    obtain ⟨part, hf⟩ := Option.isSome_iff_exists.mp hsome
    refine ⟨Call.save { c with chatMessages := c.chatMessages ++ [{ senderId := u, message := jsTrim m, timestamp := now, messageType := mt }] }, ?_, ?_⟩
    · simp [CallController.sendChatMessage, Call.addChatMessage, hf, hchat, h1000]
    · rw [Call.save_totalMessages]
      show (c.chatMessages ++ [_]).length = _
      rw [List.length_append, htm]
      rfl

set_option maxRecDepth 40000 in
/-- C9 witness: the 1000 character message from active participant 1 on
chatCall succeeds and raises totalMessages from 0 to 1. -/
theorem C9_witness :
    (jsTrim longMessage).length = 1000 ∧
    (∃ c', CallController.sendChatMessage chatCall 1 longMessage .text 5 = .ok c' ∧
      c'.analytics.totalMessages = chatCall.analytics.totalMessages + 1) := by
  refine ⟨by decide, ?_⟩
  exact (C9_chat_validation chatCall 1 longMessage .text 5).2.2.2
    (by decide) (by decide) (by decide) (by decide)
